import Mathlib

/-!
# Verification of the paraxial ray-tracing engine

Shallow embedding of `src/paraxial_raytracing/raytracing.py` (class
`OpticalSystem`) and of the refraction branch of `add_condition` in
`src/paraxial_raytracing/gui.py`.  Python floats are modelled as exact
rationals (`ℚ`); the unbounded `while True` loop of `find_marginal_rays`
is modelled with explicit fuel (`none` = the loop has not terminated
within the given fuel); the transcendental conversion
`tan(radians(k * 0.01))` from a candidate index `k` to a launch slope is
abstracted as a function parameter `slope : ℕ → ℚ`, since `tan` has no
exact rational embedding.  Python's in-place mutation of
`self.STOP_optic` is modelled by returning the updated system.
-/

namespace Raytracing

/-- The absolute tolerance `1e-10` used throughout `raytracing.py`. -/
def tol : ℚ := 1 / 10 ^ 10

/-- Kind tag of an entry of `self.matrices` (`'transfer'` / `'refraction'`). -/
inductive OpKind where
  | transfer
  | refraction
deriving DecidableEq, Repr

/-- Kind tag of an entry of `self.optical_elements` (`'lens'` / `'iris'`). -/
inductive ElemKind where
  | lens
  | iris
deriving DecidableEq, Repr

/-- A 2x2 matrix over `ℚ`, modelling the `np.array([[a, b], [c, d]])`
ray-transfer matrices. -/
structure Mat2 where
  a : ℚ
  b : ℚ
  c : ℚ
  d : ℚ
deriving DecidableEq, Repr

/-- `M @ ray` for a column vector `(y, w)` (height first, angle second),
exactly as `matrix @ ray` in `trace_ray`. -/
def Mat2.apply (M : Mat2) (v : ℚ × ℚ) : ℚ × ℚ :=
  (M.a * v.1 + M.b * v.2, M.c * v.1 + M.d * v.2)

/-- One entry of `self.matrices`: the tuple `(elem_type, matrix, distance)`. -/
structure TransferOp where
  kind : OpKind
  mat : Mat2
  dist : ℚ
deriving DecidableEq, Repr

/-- One entry of `self.optical_elements`: the tuple
`(elem_type, position, diameter)`. -/
structure OpticalElement where
  kind : ElemKind
  pos : ℚ
  diam : ℚ
deriving DecidableEq, Repr

/-- The state of an `OpticalSystem` instance: the four attributes set in
`OpticalSystem.__init__`. -/
structure OpticalSystem where
  matrices : List TransferOp := []
  optical_elements : List OpticalElement := []
  object_height : Option ℚ := none
  STOP_optic : Option OpticalElement := none
deriving DecidableEq, Repr

/-- `OpticalSystem.set_object_height`. -/
def OpticalSystem.set_object_height (s : OpticalSystem) (height : ℚ) : OpticalSystem :=
  { s with object_height := some height }

/-- The transfer matrix `[[1, distance], [0, 1]]` built by `add_transfer`. -/
def transferMat (distance : ℚ) : Mat2 := ⟨1, distance, 0, 1⟩

/-- The refraction matrix `[[1, 0], [-power, 1]]` built by `add_refraction`. -/
def refractionMat (power : ℚ) : Mat2 := ⟨1, 0, -power, 1⟩

/-- `OpticalSystem.add_transfer`: appends `('transfer', [[1, d], [0, 1]], d)`. -/
def OpticalSystem.add_transfer (s : OpticalSystem) (distance : ℚ) : OpticalSystem :=
  { s with matrices := s.matrices ++ [⟨.transfer, transferMat distance, distance⟩] }

/-- `OpticalSystem.add_refraction`: appends
`('refraction', [[1, 0], [-power, 1]], 0)` to `matrices` and
`('lens', position, diameter)` to `optical_elements`. -/
def OpticalSystem.add_refraction (s : OpticalSystem) (position power diameter : ℚ) :
    OpticalSystem :=
  { s with
    matrices := s.matrices ++ [⟨.refraction, refractionMat power, 0⟩]
    optical_elements := s.optical_elements ++ [⟨.lens, position, diameter⟩] }

/-- `OpticalSystem.add_iris`: appends `('iris', position, diameter)`. -/
def OpticalSystem.add_iris (s : OpticalSystem) (position diameter : ℚ) : OpticalSystem :=
  { s with optical_elements := s.optical_elements ++ [⟨.iris, position, diameter⟩] }

/-- The vignetting test of `trace_ray`: scan `self.optical_elements` for an
element with `abs(pos - current_z) < 1e-10 and abs(y) > diameter/2`. -/
def blockedAt (elems : List OpticalElement) (z y : ℚ) : Bool :=
  elems.any (fun e => decide (|e.pos - z| < tol) && decide (e.diam / 2 < |y|))

/-- The `for`-loop body of `trace_ray`, written as structural recursion over
the remaining ops.  The Python accumulator `path` is returned as the list of
samples appended from this point on: each op multiplies the ray by its
matrix, advances `current_z`, records `(current_z, y)`, and returns
immediately (truncating) when an element at the new position blocks the
ray. -/
def traceFrom (elems : List OpticalElement) :
    List TransferOp → ℚ × ℚ → ℚ → List (ℚ × ℚ)
  | [], _, _ => []
  | op :: rest, ray, z =>
    let ray' := op.mat.apply ray
    let z' := z + op.dist
    if blockedAt elems z' ray'.1 then [(z', ray'.1)]
    else (z', ray'.1) :: traceFrom elems rest ray' z'

/-- `OpticalSystem.trace_ray`: the path starts at `(0, y0)` (the initial
ray vector is `[y0, w0]`, `current_z = 0`). -/
def OpticalSystem.trace_ray (s : OpticalSystem) (w0 y0 : ℚ) : List (ℚ × ℚ) :=
  (0, y0) :: traceFrom s.optical_elements s.matrices (y0, w0) 0

/-- The value of the loop variable `ray` of `trace_ray` at the point where
the function returns (normally or by early vignetting return). -/
def rayAfter (elems : List OpticalElement) :
    List TransferOp → ℚ × ℚ → ℚ → ℚ × ℚ
  | [], ray, _ => ray
  | op :: rest, ray, z =>
    let ray' := op.mat.apply ray
    let z' := z + op.dist
    if blockedAt elems z' ray'.1 then ray' else rayAfter elems rest ray' z'

/-- The value of the loop variable `current_z` of `trace_ray` at the point
where the function returns; this is the axial position of the last sample
appended to the path. -/
def finalZfrom (elems : List OpticalElement) :
    List TransferOp → ℚ × ℚ → ℚ → ℚ
  | [], _, z => z
  | op :: rest, ray, z =>
    let ray' := op.mat.apply ray
    let z' := z + op.dist
    if blockedAt elems z' ray'.1 then z' else finalZfrom elems rest ray' z'

/-- `sum(distance for _, _, distance in self.matrices if distance > 0)`,
as computed in `find_marginal_rays` and `find_image_position`. -/
def totalDistance (s : OpticalSystem) : ℚ :=
  ((s.matrices.filter fun op => decide (0 < op.dist)).map fun op => op.dist).sum

/-- `path[-1][0]`: the axial position of the last path sample (the paths
produced by `trace_ray` are never empty). -/
def finalZ (path : List (ℚ × ℚ)) : ℚ := (path.getLastD (0, 0)).1

/-- The `all_elements_passed` classification of one `find_marginal_rays`
iteration: the trace passes iff the path has at least two samples and its
final axial position matches the total transfer length within `1e-10`. -/
def passB (s : OpticalSystem) (path : List (ℚ × ℚ)) : Bool :=
  decide (2 ≤ path.length) && decide (|finalZ path - totalDistance s| ≤ tol)

/-- The `STOP_optic` update of a failing `find_marginal_rays` iteration:
when the path has at least two samples (so `final_z` was inspected), the
first registered element whose position matches `final_z` within `1e-10`
overwrites `self.STOP_optic`; otherwise the marker is left unchanged. -/
def applyStop (s : OpticalSystem) (path : List (ℚ × ℚ)) : OpticalSystem :=
  if 2 ≤ path.length then
    match s.optical_elements.find? (fun e => decide (|e.pos - finalZ path| < tol)) with
    | some e => { s with STOP_optic := some e }
    | none => s
  else s

/-- `angle_step = 0.01` (degrees). -/
def angle_step : ℚ := 1 / 100

/-- The `while True` loop of `find_marginal_rays`, with explicit fuel.
`k` is the index of the current candidate (`current_angle = k * angle_step`,
starting at `k = 1`), `lastPath` is `last_successful_path`, and
`slope k` stands for `np.tan(deg_to_rad(k * angle_step))`.  A `some`
result carries the system with its (possibly overwritten) stop marker
together with the returned list; `none` means the fuel ran out before the
loop returned. -/
def find_marginal_rays_aux (s : OpticalSystem) (slope : ℕ → ℚ) :
    ℕ → ℕ → Option (List (ℚ × ℚ)) →
    Option (OpticalSystem × List (ℚ × List (ℚ × ℚ)))
  | 0, _, _ => none
  | fuel + 1, k, lastPath =>
    let path := s.trace_ray (slope k) 0
    if passB s path then
      find_marginal_rays_aux s slope fuel (k + 1) (some path)
    else
      match lastPath with
      | some p => some (applyStop s path, [((k : ℚ) * angle_step - angle_step, p)])
      | none => some (applyStop s path, [])

/-- `OpticalSystem.find_marginal_rays`: starts at the first step
(`current_angle = angle_step`, i.e. `k = 1`) with no successful path yet. -/
def OpticalSystem.find_marginal_rays (s : OpticalSystem) (slope : ℕ → ℚ) (fuel : ℕ) :
    Option (OpticalSystem × List (ℚ × List (ℚ × ℚ))) :=
  find_marginal_rays_aux s slope fuel 1 none

/-- The interpolation scan of `find_convergence`: walk consecutive path
sample pairs and, at the first pair bracketing `z` (`z1 <= z <= z2`),
return `y1 + (z - z1)/(z2 - z1) * (y2 - y1)`; `none` if no pair brackets
`z`.  (On a degenerate bracketing pair with `z1 = z2 = z` the Python
float quotient `0.0/0.0` is NaN; in `ℚ` the quotient is `0`, so the
sample height is `y1` — no claim depends on this corner.) -/
def interpHeightAt : List (ℚ × ℚ) → ℚ → Option ℚ
  | p1 :: p2 :: rest, z =>
    if p1.1 ≤ z ∧ z ≤ p2.1 then
      some (p1.2 + (z - p1.1) / (p2.1 - p1.1) * (p2.2 - p1.2))
    else interpHeightAt (p2 :: rest) z
  | _, _ => none

/-- `np.linspace(0, T, 1000)`: the 1000 evenly spaced sample positions
`T * i / 999` for `i = 0, ..., 999`. -/
def zPositions (T : ℚ) : List ℚ :=
  (List.range 1000).map fun i => T * i / 999

/-- `max(heights)` for a nonempty list (`0` on `[]`, never used there). -/
def listMax : List ℚ → ℚ
  | [] => 0
  | x :: xs => xs.foldl max x

/-- `min(heights)` for a nonempty list (`0` on `[]`, never used there). -/
def listMin : List ℚ → ℚ
  | [] => 0
  | x :: xs => xs.foldl min x

/-- `np.mean(heights)` = sum divided by length. -/
def listMean (l : List ℚ) : ℚ := l.sum / l.length

/-- The multi-point traced paths of a ray group: trace every `(w0, y0)`
launch pair and keep the paths with more than one sample
(`if len(path) > 1: ray_paths.append(path)`). -/
def tracedMultiPaths (s : OpticalSystem) (raysFromPoint : List (ℚ × ℚ)) :
    List (List (ℚ × ℚ)) :=
  raysFromPoint.filterMap fun r =>
    let path := s.trace_ray r.1 r.2
    if 1 < path.length then some path else none

/-- The `spreads` list of `find_convergence`: for each sample position,
interpolate each path's height (skipping paths with no bracketing
segment) and, when at least one height exists, record
`(spread, z, mean_height)`. -/
def spreadSamples (paths : List (List (ℚ × ℚ))) (T : ℚ) : List (ℚ × ℚ × ℚ) :=
  (zPositions T).filterMap fun z =>
    let heights := paths.filterMap fun p => interpHeightAt p z
    if heights.isEmpty then none
    else some (listMax heights - listMin heights, z, listMean heights)

/-- Python's `spreads.sort()` compares the `(spread, z, mean_height)`
tuples lexicographically, ascending. -/
def lexLe (x y : ℚ × ℚ × ℚ) : Bool :=
  decide (x.1 < y.1) ||
    (decide (x.1 = y.1) &&
      (decide (x.2.1 < y.2.1) ||
        (decide (x.2.1 = y.2.1) && decide (x.2.2 ≤ y.2.2))))

/-- `spreads.sort()`: Python `list.sort` is a stable sort by the
lexicographic tuple order; modelled with `List.mergeSort` (stable). -/
def sortSpreads (l : List (ℚ × ℚ × ℚ)) : List (ℚ × ℚ × ℚ) :=
  l.mergeSort lexLe

/-- The `distinct_points` loop of `find_convergence`.  `distinct_points`
starts as `[spreads[0]]` and the loop returns the second point as soon as
it is appended, so the list never holds more than the first point while
scanning: the loop returns `(z, height)` of the first tail sample whose
`z` differs from the first point's `z` by more than `1.0` (1 cm), and
`none` when no tail sample does. -/
def selectSecond (first : ℚ × ℚ × ℚ) : List (ℚ × ℚ × ℚ) → Option (ℚ × ℚ)
  | [] => none
  | t :: rest =>
    if 1 < |t.2.1 - first.2.1| then some (t.2.1, t.2.2) else selectSecond first rest

/-- The inner `find_convergence` of `find_image_position`. -/
def find_convergence (s : OpticalSystem) (raysFromPoint : List (ℚ × ℚ)) :
    Option ℚ × Option ℚ :=
  let ray_paths := tracedMultiPaths s raysFromPoint
  if ray_paths.length < 2 then (none, none)
  else
    let spreads := spreadSamples ray_paths (totalDistance s)
    if spreads.isEmpty then (none, none)
    else
      let sorted := sortSpreads spreads
      if 2 ≤ sorted.length then
        match sorted with
        | [] => (none, none)
        | first :: rest =>
          match selectSecond first rest with
          | some zh => (some zh.1, some zh.2)
          | none => (none, none)
      else (none, none)

/-- `OpticalSystem.find_image_position`: raises
`ValueError("Object height not set")` when `self.object_height is None`
(modelled as `Except.error`); otherwise partitions the launch pairs into
toe rays (`abs(y0) < 1e-10`) and head rays
(`abs(y0 - self.object_height) < 1e-10`) and returns the two groups'
convergence results. -/
def OpticalSystem.find_image_position (s : OpticalSystem) (rays : List (ℚ × ℚ)) :
    Except String (Option ℚ × Option ℚ × Option ℚ × Option ℚ) :=
  match s.object_height with
  | none => .error "Object height not set"
  | some H =>
    let toe_rays := rays.filter fun r => decide (|r.2| < tol)
    let head_rays := rays.filter fun r => decide (|r.2 - H| < tol)
    let toe := find_convergence s toe_rays
    let head := find_convergence s head_rays
    .ok (toe.1, toe.2, head.1, head.2)

/-- `trace_ray` as a state transformer: the Python method body assigns no
attribute of `self`, so the post-state is the pre-state. -/
def OpticalSystem.trace_ray_method (s : OpticalSystem) (w0 y0 : ℚ) :
    OpticalSystem × List (ℚ × ℚ) :=
  (s, s.trace_ray w0 y0)

/-- `find_image_position` as a state transformer: the Python method body
(and the nested `find_convergence`) assigns no attribute of `self`, so
the post-state is the pre-state. -/
def OpticalSystem.find_image_position_method (s : OpticalSystem) (rays : List (ℚ × ℚ)) :
    OpticalSystem × Except String (Option ℚ × Option ℚ × Option ℚ × Option ℚ) :=
  (s, s.find_image_position rays)

/-- Modelled from the spec and the claim wording for C2 (spec section 4.5):
the group's convergence point is the second distinct candidate of the
spread-ascending sample list — the first sample (in sorted order) whose
`z` differs by more than 1 cm from the first candidate, the first
candidate being the minimum-spread sample (the sorted head); absent when
fewer than 2 rays trace to multi-point paths or fewer than two distinct
candidates exist. -/
def specConvergence (s : OpticalSystem) (raysFromPoint : List (ℚ × ℚ)) :
    Option ℚ × Option ℚ :=
  let ray_paths := tracedMultiPaths s raysFromPoint
  if ray_paths.length < 2 then (none, none)
  else
    match sortSpreads (spreadSamples ray_paths (totalDistance s)) with
    | [] => (none, none)
    | first :: rest =>
      match rest.find? (fun t => decide (1 < |t.2.1 - first.2.1|)) with
      | some t => (some t.2.1, some t.2.2)
      | none => (none, none)

/-- A system with a single transfer and no apertures: every candidate
angle of the marginal-ray search passes, so the search never returns. -/
def sysNoStop : OpticalSystem := ({} : OpticalSystem).add_transfer 1

/-- A transfer of 10 cm, a very narrow iris at 10 cm, and a further
transfer of 1 cm: already the first candidate angle is vignetted. -/
def sysStopAtIris : OpticalSystem :=
  ((({} : OpticalSystem).add_transfer 10).add_iris 10 (1 / 1000)).add_transfer 1

/-- A transfer of 10 cm, an iris of diameter 30 at 10 cm, and a transfer
of 1 cm: with the integer slope stand-in, candidate 1 (slope 1, height 10
at the iris) passes and candidate 2 (slope 2, height 20) is vignetted. -/
def sysMarginal : OpticalSystem :=
  ((({} : OpticalSystem).add_transfer 10).add_iris 10 30).add_transfer 1

/-- A monotone nonnegative stand-in for the slope conversion
`tan(radians(k * 0.01))`, used to instantiate witnesses. -/
def natSlope : ℕ → ℚ := fun k => (k : ℚ)

/-- A system with an iris but no transfer or refraction ops at all. -/
def sysEmptyOps : OpticalSystem :=
  (({} : OpticalSystem).set_object_height 4).add_iris 5 2

/-- The refraction branch of `add_condition` in `gui.py`: the power is
computed as `1.0 / focal_length`, which raises `ZeroDivisionError` when
the focal length is exactly zero; the exception is caught (the system is
left untouched and an error box is shown) before `add_refraction` — and
hence the refraction matrix construction — is ever reached. -/
def addConditionRefraction (s : OpticalSystem) (currentPos focalLength diam : ℚ) :
    Except String OpticalSystem :=
  if focalLength = 0 then .error "Focal length cannot be zero"
  else .ok (s.add_refraction currentPos (1 / focalLength) diam)

/-! ## Basic lemmas about the trace loop -/

lemma tol_pos : 0 < tol := by norm_num [tol]

lemma blockedAt_nil (z y : ℚ) : blockedAt [] z y = false := rfl

/-- The final `z` of the path returned by the trace loop is the loop's
final `current_z`. -/
lemma getLastD_traceFrom (elems : List OpticalElement) :
    ∀ (ops : List TransferOp) (ray : ℚ × ℚ) (z : ℚ) (p : ℚ × ℚ), p.1 = z →
      ((traceFrom elems ops ray z).getLastD p).1 = finalZfrom elems ops ray z
  | [], ray, z, p, hp => by simp [traceFrom, finalZfrom, hp]
  | op :: rest, ray, z, p, hp => by
    simp only [traceFrom, finalZfrom]
    by_cases hb : blockedAt elems (z + op.dist) (op.mat.apply ray).1
    · simp [hb]
    · simp only [hb, if_false, Bool.false_eq_true, List.getLastD_cons]
      exact getLastD_traceFrom elems rest (op.mat.apply ray) (z + op.dist)
        (z + op.dist, (op.mat.apply ray).1) rfl

lemma finalZ_trace_ray (s : OpticalSystem) (w0 y0 : ℚ) :
    finalZ (s.trace_ray w0 y0) = finalZfrom s.optical_elements s.matrices (y0, w0) 0 := by
  rw [finalZ, OpticalSystem.trace_ray, List.getLastD_cons]
  exact getLastD_traceFrom s.optical_elements s.matrices (y0, w0) 0 (0, y0) rfl

lemma traceFrom_ne_nil (elems : List OpticalElement) (op : TransferOp)
    (rest : List TransferOp) (ray : ℚ × ℚ) (z : ℚ) :
    traceFrom elems (op :: rest) ray z ≠ [] := by
  simp only [traceFrom]
  by_cases hb : blockedAt elems (z + op.dist) (op.mat.apply ray).1 <;> simp [hb]

/-- A traced path has at least two samples exactly when the matrix
sequence is nonempty. -/
lemma two_le_trace_length (s : OpticalSystem) (w0 y0 : ℚ) :
    2 ≤ (s.trace_ray w0 y0).length ↔ s.matrices ≠ [] := by
  cases hm : s.matrices with
  | nil => simp [OpticalSystem.trace_ray, hm, traceFrom]
  | cons op rest =>
    simp only [OpticalSystem.trace_ray, hm, List.length_cons]
    constructor
    · intro _ h
      exact (List.cons_ne_nil op rest) (hm ▸ h)
    · intro _
      have h := traceFrom_ne_nil s.optical_elements op rest (y0, w0) 0
      have : 1 ≤ (traceFrom s.optical_elements (op :: rest) (y0, w0) 0).length :=
        Nat.one_le_iff_ne_zero.mpr (fun hc => h (List.length_eq_zero.mp hc))
      omega

/-- Applying a ray-transfer matrix commutes with scaling the ray: the
trace of a ray launched from the axis is homogeneous in the slope. -/
lemma Mat2.apply_smul (M : Mat2) (c h g : ℚ) :
    M.apply (c * h, c * g) = (c * (M.apply (h, g)).1, c * (M.apply (h, g)).2) := by
  simp only [Mat2.apply, Prod.mk.injEq]
  exact ⟨by ring, by ring⟩

/-- Vignetting is monotone in the (nonnegative) scale of the ray height. -/
lemma blockedAt_mono (elems : List OpticalElement) (z h a b : ℚ)
    (ha : 0 ≤ a) (hab : a ≤ b) (hblk : blockedAt elems z (a * h) = true) :
    blockedAt elems z (b * h) = true := by
  rw [blockedAt, List.any_eq_true] at hblk ⊢
  obtain ⟨e, he, hcond⟩ := hblk
  refine ⟨e, he, ?_⟩
  rw [Bool.and_eq_true, decide_eq_true_iff, decide_eq_true_iff] at hcond ⊢
  refine ⟨hcond.1, lt_of_lt_of_le hcond.2 ?_⟩
  rw [abs_mul, abs_mul]
  have hb' : |a| ≤ |b| := by
    rw [abs_of_nonneg ha, abs_of_nonneg (ha.trans hab)]
    exact hab
  exact mul_le_mul_of_nonneg_right hb' (abs_nonneg h)

/-- Sum of the distances of a list of ops. -/
def sumDists (ops : List TransferOp) : ℚ := (ops.map fun op => op.dist).sum

/-- The loop's final `current_z` lies between the starting `z` and the
starting `z` plus all remaining distances (when distances are
nonnegative). -/
lemma finalZfrom_bounds (elems : List OpticalElement) :
    ∀ (ops : List TransferOp) (ray : ℚ × ℚ) (z : ℚ),
      (∀ op ∈ ops, 0 ≤ op.dist) →
      z ≤ finalZfrom elems ops ray z ∧
        finalZfrom elems ops ray z ≤ z + sumDists ops
  | [], ray, z, _ => by simp [finalZfrom, sumDists]
  | op :: rest, ray, z, hd => by
    have hop : 0 ≤ op.dist := hd op (List.mem_cons_self op rest)
    have hrest : ∀ o ∈ rest, 0 ≤ o.dist := fun o ho => hd o (List.mem_cons_of_mem op ho)
    have hsum : 0 ≤ (rest.map fun o => o.dist).sum := by
      apply List.sum_nonneg
      intro x hx
      obtain ⟨o, ho, rfl⟩ := List.mem_map.mp hx
      exact hrest o ho
    simp only [finalZfrom]
    by_cases hb : blockedAt elems (z + op.dist) (op.mat.apply ray).1
    · simp only [hb, if_true]
      constructor
      · linarith
      · simp only [sumDists, List.map_cons, List.sum_cons]
        linarith
    · simp only [hb, Bool.false_eq_true, if_false]
      obtain ⟨h1, h2⟩ := finalZfrom_bounds elems rest (op.mat.apply ray) (z + op.dist) hrest
      constructor
      · linarith
      · simp only [sumDists, List.map_cons, List.sum_cons] at h2 ⊢
        linarith

/-- A larger launch slope never gets farther through the system: its
final `current_z` is at most the smaller slope's (nonnegative distances,
both rays homogeneous scalings of a common ray). -/
lemma finalZfrom_antitone (elems : List OpticalElement) :
    ∀ (ops : List TransferOp) (h g z a b : ℚ),
      0 ≤ a → a ≤ b → (∀ op ∈ ops, 0 ≤ op.dist) →
      finalZfrom elems ops (b * h, b * g) z ≤ finalZfrom elems ops (a * h, a * g) z
  | [], h, g, z, a, b, _, _, _ => by simp [finalZfrom]
  | op :: rest, h, g, z, a, b, ha, hab, hd => by
    have hop : 0 ≤ op.dist := hd op (List.mem_cons_self op rest)
    have hrest : ∀ o ∈ rest, 0 ≤ o.dist := fun o ho => hd o (List.mem_cons_of_mem op ho)
    simp only [finalZfrom, Mat2.apply_smul]
    set h' := (op.mat.apply (h, g)).1 with hh'
    set g' := (op.mat.apply (h, g)).2 with hg'
    by_cases hbb : blockedAt elems (z + op.dist) (b * h')
    · simp only [hbb, if_true]
      by_cases hba : blockedAt elems (z + op.dist) (a * h')
      · simp [hba]
      · simp only [hba, Bool.false_eq_true, if_false]
        exact (finalZfrom_bounds elems rest (a * h', a * g') (z + op.dist) hrest).1
    · have hba : blockedAt elems (z + op.dist) (a * h') = false := by
        by_contra hc
        exact hbb (blockedAt_mono elems (z + op.dist) h' a b ha hab
          (Bool.of_not_eq_false hc))
      simp only [hbb, hba, Bool.false_eq_true, if_false]
      exact finalZfrom_antitone elems rest h' g' (z + op.dist) a b ha hab hrest

/-- With nonnegative distances, the positive-distance filter of the
total-distance sum keeps the full sum. -/
lemma sum_filter_pos :
    ∀ (ops : List TransferOp), (∀ op ∈ ops, 0 ≤ op.dist) →
      (((ops.filter fun op => decide (0 < op.dist)).map fun op => op.dist).sum =
        (ops.map fun op => op.dist).sum)
  | [], _ => by simp
  | op :: rest, hd => by
    have hop : 0 ≤ op.dist := hd op (List.mem_cons_self op rest)
    have hrest : ∀ o ∈ rest, 0 ≤ o.dist := fun o ho => hd o (List.mem_cons_of_mem op ho)
    by_cases h0 : 0 < op.dist
    · simp only [List.filter_cons]
      rw [if_pos (by simpa using h0)]
      simp only [List.map_cons, List.sum_cons]
      rw [sum_filter_pos rest hrest]
    · have hz : op.dist = 0 := le_antisymm (not_lt.mp h0) hop
      simp only [List.filter_cons]
      rw [if_neg (by simpa using h0)]
      simp only [List.map_cons, List.sum_cons, hz, zero_add]
      exact sum_filter_pos rest hrest

lemma totalDistance_eq_sumDists (s : OpticalSystem)
    (hd : ∀ op ∈ s.matrices, 0 ≤ op.dist) :
    totalDistance s = sumDists s.matrices := by
  rw [totalDistance, sumDists]
  exact sum_filter_pos s.matrices hd

/-- Success of a candidate in `find_marginal_rays` is downward closed in
the launch slope: if a larger slope traces to the full system length, so
does any smaller nonnegative slope (for nonnegative transfer
distances). -/
lemma passB_mono (s : OpticalSystem) (a b : ℚ)
    (hd : ∀ op ∈ s.matrices, 0 ≤ op.dist) (ha : 0 ≤ a) (hab : a ≤ b)
    (hb : passB s (s.trace_ray b 0) = true) :
    passB s (s.trace_ray a 0) = true := by
  rw [passB, Bool.and_eq_true, decide_eq_true_iff, decide_eq_true_iff] at hb ⊢
  obtain ⟨hlen, hz⟩ := hb
  have hne : s.matrices ≠ [] := (two_le_trace_length s b 0).mp hlen
  constructor
  · exact (two_le_trace_length s a 0).mpr hne
  · rw [finalZ_trace_ray] at hz ⊢
    have hza : (0 : ℚ) = a * 0 := by ring
    have hwa : a = a * 1 := by ring
    have hzb : (0 : ℚ) = b * 0 := by ring
    have hwb : b = b * 1 := by ring
    have hanti : finalZfrom s.optical_elements s.matrices (b * 0, b * 1) 0 ≤
        finalZfrom s.optical_elements s.matrices (a * 0, a * 1) 0 :=
      finalZfrom_antitone s.optical_elements s.matrices 0 1 0 a b ha hab hd
    rw [← hza, ← hwa, ← hzb, ← hwb] at hanti
    have hub : finalZfrom s.optical_elements s.matrices (0, a) 0 ≤ totalDistance s := by
      have := (finalZfrom_bounds s.optical_elements s.matrices (0, a) 0 hd).2
      rw [totalDistance_eq_sumDists s hd]
      simpa using this
    have hubb : finalZfrom s.optical_elements s.matrices (0, b) 0 ≤ totalDistance s := by
      have := (finalZfrom_bounds s.optical_elements s.matrices (0, b) 0 hd).2
      rw [totalDistance_eq_sumDists s hd]
      simpa using this
    rw [abs_sub_le_iff] at hz ⊢
    constructor
    · linarith
    · linarith

/-! ## The marginal-ray search loop -/

lemma fmr_aux_pass (s : OpticalSystem) (slope : ℕ → ℚ) (fuel k : ℕ)
    (last : Option (List (ℚ × ℚ)))
    (h : passB s (s.trace_ray (slope k) 0) = true) :
    find_marginal_rays_aux s slope (fuel + 1) k last =
      find_marginal_rays_aux s slope fuel (k + 1) (some (s.trace_ray (slope k) 0)) := by
  simp only [find_marginal_rays_aux, h, if_true]

lemma fmr_aux_fail_some (s : OpticalSystem) (slope : ℕ → ℚ) (fuel k : ℕ)
    (p : List (ℚ × ℚ)) (h : passB s (s.trace_ray (slope k) 0) = false) :
    find_marginal_rays_aux s slope (fuel + 1) k (some p) =
      some (applyStop s (s.trace_ray (slope k) 0),
        [((k : ℚ) * angle_step - angle_step, p)]) := by
  simp only [find_marginal_rays_aux, h, Bool.false_eq_true, if_false]

lemma fmr_aux_fail_none (s : OpticalSystem) (slope : ℕ → ℚ) (fuel k : ℕ)
    (h : passB s (s.trace_ray (slope k) 0) = false) :
    find_marginal_rays_aux s slope (fuel + 1) k none =
      some (applyStop s (s.trace_ray (slope k) 0), []) := by
  simp only [find_marginal_rays_aux, h, Bool.false_eq_true, if_false]

/-- Full run of the `find_marginal_rays` loop up to the first failing
candidate `k₀`: starting at candidate `k ≤ k₀` with the loop invariant
(`last_successful_path` is the previous candidate's path, `none` at the
start), the loop returns at `k₀` with the last successful angle and path
(or the empty list when `k₀` is the very first candidate). -/
lemma fmr_aux_run (s : OpticalSystem) (slope : ℕ → ℚ) (k₀ : ℕ)
    (hfail : passB s (s.trace_ray (slope k₀) 0) = false)
    (hmin : ∀ j, 1 ≤ j → j < k₀ → passB s (s.trace_ray (slope j) 0) = true) :
    ∀ (fuel k : ℕ), 1 ≤ k → k ≤ k₀ → k₀ - k < fuel →
      find_marginal_rays_aux s slope fuel k
          (if k = 1 then none else some (s.trace_ray (slope (k - 1)) 0)) =
        some (applyStop s (s.trace_ray (slope k₀) 0),
          if k₀ = 1 then []
          else [((k₀ : ℚ) * angle_step - angle_step, s.trace_ray (slope (k₀ - 1)) 0)]) := by
  intro fuel
  induction fuel with
  | zero => intro k _ _ hfuel; omega
  | succ n ih =>
    intro k hk1 hkk hfuel
    rcases eq_or_lt_of_le hkk with heq | hlt
    · subst heq
      by_cases h1 : k = 1
      · rw [if_pos h1, if_pos h1, fmr_aux_fail_none s slope n k hfail]
      · rw [if_neg h1, if_neg h1,
          fmr_aux_fail_some s slope n k (s.trace_ray (slope (k - 1)) 0) hfail]
    · have hpass : passB s (s.trace_ray (slope k) 0) = true := hmin k hk1 hlt
      rw [fmr_aux_pass s slope n k _ hpass]
      have hres := ih (k + 1) (by omega) (by omega) (by omega)
      have h1 : ¬(k + 1 = 1) := by omega
      rw [if_neg h1, Nat.add_sub_cancel] at hres
      exact hres

/-- `applyStop` changes at most the stop marker, and only to a registered
element. -/
lemma applyStop_fields (s : OpticalSystem) (p : List (ℚ × ℚ)) :
    (applyStop s p).matrices = s.matrices ∧
      (applyStop s p).optical_elements = s.optical_elements ∧
      (applyStop s p).object_height = s.object_height ∧
      ((applyStop s p).STOP_optic = s.STOP_optic ∨
        ∃ e ∈ s.optical_elements, (applyStop s p).STOP_optic = some e) := by
  rw [applyStop]
  by_cases h : 2 ≤ p.length
  · rw [if_pos h]
    cases hf : s.optical_elements.find? (fun e => decide (|e.pos - finalZ p| < tol)) with
    | none => exact ⟨rfl, rfl, rfl, Or.inl rfl⟩
    | some e => exact ⟨rfl, rfl, rfl, Or.inr ⟨e, List.mem_of_find?_eq_some hf, rfl⟩⟩
  · rw [if_neg h]
    exact ⟨rfl, rfl, rfl, Or.inl rfl⟩

/-- Whatever iteration the `find_marginal_rays` loop returns from, the
system it leaves behind differs from the input system in at most the
stop marker, and a new marker is a registered element. -/
lemma fmr_aux_frame (s : OpticalSystem) (slope : ℕ → ℚ) :
    ∀ (fuel k : ℕ) (last : Option (List (ℚ × ℚ))) (s' : OpticalSystem)
      (res : List (ℚ × List (ℚ × ℚ))),
      find_marginal_rays_aux s slope fuel k last = some (s', res) →
      s'.matrices = s.matrices ∧
        s'.optical_elements = s.optical_elements ∧
        s'.object_height = s.object_height ∧
        (s'.STOP_optic = s.STOP_optic ∨
          ∃ e ∈ s.optical_elements, s'.STOP_optic = some e)
  | 0, k, last, s', res => by
    intro h
    simp [find_marginal_rays_aux] at h
  | fuel + 1, k, last, s', res => by
    intro h
    by_cases hp : passB s (s.trace_ray (slope k) 0) = true
    · rw [fmr_aux_pass s slope fuel k last hp] at h
      exact fmr_aux_frame s slope fuel (k + 1) _ s' res h
    · rw [Bool.not_eq_true] at hp
      cases last with
      | none =>
        rw [fmr_aux_fail_none s slope fuel k hp] at h
        obtain ⟨hs, _⟩ := Prod.mk.injEq .. ▸ Option.some.injEq .. ▸ h
        exact hs ▸ applyStop_fields s (s.trace_ray (slope k) 0)
      | some p =>
        rw [fmr_aux_fail_some s slope fuel k p hp] at h
        obtain ⟨hs, _⟩ := Prod.mk.injEq .. ▸ Option.some.injEq .. ▸ h
        exact hs ▸ applyStop_fields s (s.trace_ray (slope k) 0)

/-- Top-level run of `find_marginal_rays` to the first failing
candidate. -/
lemma fmr_run_top (s : OpticalSystem) (slope : ℕ → ℚ) (k₀ : ℕ)
    (hfail : passB s (s.trace_ray (slope k₀) 0) = false)
    (hmin : ∀ j, 1 ≤ j → j < k₀ → passB s (s.trace_ray (slope j) 0) = true)
    (fuel : ℕ) (hk : 1 ≤ k₀) (hfuel : k₀ ≤ fuel) :
    s.find_marginal_rays slope fuel =
      some (applyStop s (s.trace_ray (slope k₀) 0),
        if k₀ = 1 then []
        else [((k₀ : ℚ) * angle_step - angle_step, s.trace_ray (slope (k₀ - 1)) 0)]) := by
  have h := fmr_aux_run s slope k₀ hfail hmin fuel 1 (le_refl 1) hk (by omega)
  rw [if_pos rfl] at h
  exact h

/-- When every candidate passes, the loop never returns, whatever the
fuel. -/
lemma fmr_aux_never (s : OpticalSystem) (slope : ℕ → ℚ)
    (hall : ∀ k, 1 ≤ k → passB s (s.trace_ray (slope k) 0) = true) :
    ∀ (fuel k : ℕ) (last : Option (List (ℚ × ℚ))), 1 ≤ k →
      find_marginal_rays_aux s slope fuel k last = none
  | 0, k, last, _ => rfl
  | fuel + 1, k, last, hk => by
    rw [fmr_aux_pass s slope fuel k last (hall k hk)]
    exact fmr_aux_never s slope hall fuel (k + 1) _ (by omega)

/-- Full evaluation of `trace_ray` on a system built as transfer `d1`,
iris of diameter `D` at `d1`, transfer `d2`: the iris blocks exactly when
the height there strictly exceeds `D / 2`. -/
lemma trace_two_transfer_iris (d1 d2 D w0 y0 : ℚ) :
    (((({} : OpticalSystem).add_transfer d1).add_iris d1 D).add_transfer d2).trace_ray w0 y0 =
      if D / 2 < |y0 + d1 * w0| then [(0, y0), (d1, y0 + d1 * w0)]
      else [(0, y0), (d1, y0 + d1 * w0), (d1 + d2, y0 + d1 * w0 + d2 * w0)] := by
  have hsys : ((({} : OpticalSystem).add_transfer d1).add_iris d1 D).add_transfer d2 =
      { matrices := [⟨.transfer, transferMat d1, d1⟩, ⟨.transfer, transferMat d2, d2⟩],
        optical_elements := [⟨.iris, d1, D⟩],
        object_height := none, STOP_optic := none } := by
    simp [OpticalSystem.add_transfer, OpticalSystem.add_iris]
  rw [hsys, OpticalSystem.trace_ray]
  have hb1 : blockedAt [⟨.iris, d1, D⟩] (0 + d1) (1 * y0 + d1 * w0) =
      decide (D / 2 < |y0 + d1 * w0|) := by
    simp only [blockedAt, List.any_cons, List.any_nil, Bool.or_false]
    have : |d1 - (0 + d1)| < tol := by
      rw [zero_add, sub_self, abs_zero]
      exact tol_pos
    rw [decide_eq_true this, Bool.true_and, one_mul]
  by_cases hcase : D / 2 < |y0 + d1 * w0|
  · rw [if_pos hcase]
    simp only [traceFrom, Mat2.apply, transferMat, hb1, decide_eq_true hcase, if_pos]
    norm_num
  · rw [if_neg hcase]
    have hfalse : decide (D / 2 < |y0 + d1 * w0|) = false := by
      simpa using hcase
    simp only [traceFrom, Mat2.apply, transferMat, hb1, hfalse, Bool.false_eq_true, if_false]
    by_cases hb2 : blockedAt [⟨.iris, d1, D⟩] (0 + d1 + d2)
        (1 * (1 * y0 + d1 * w0) + d2 * (0 * y0 + 1 * w0)) = true
    · rw [if_pos hb2]
      norm_num
    · rw [if_neg hb2]
      norm_num

/-! ## The convergence search -/

/-- The `distinct_points` loop returns exactly the first sorted tail
sample more than 1 cm away from the first point. -/
lemma selectSecond_eq_find? (first : ℚ × ℚ × ℚ) :
    ∀ l : List (ℚ × ℚ × ℚ),
      selectSecond first l =
        (l.find? fun t => decide (1 < |t.2.1 - first.2.1|)).map fun t => (t.2.1, t.2.2)
  | [] => rfl
  | t :: rest => by
    by_cases h : 1 < |t.2.1 - first.2.1|
    · simp [selectSecond, List.find?, h]
    · simp only [selectSecond, if_neg h, List.find?]
      rw [decide_eq_false h]
      exact selectSecond_eq_find? first rest

lemma lexLe_trans (a b c : ℚ × ℚ × ℚ) (hab : lexLe a b) (hbc : lexLe b c) : lexLe a c := by
  simp only [lexLe, Bool.or_eq_true, Bool.and_eq_true, decide_eq_true_iff] at hab hbc ⊢
  rcases hab with h1 | ⟨h1, h2 | ⟨h2, h3⟩⟩ <;>
    rcases hbc with g1 | ⟨g1, g2 | ⟨g2, g3⟩⟩ <;>
    first
      | (left; linarith)
      | (right; constructor; linarith; left; linarith)
      | (right; constructor; linarith; right; constructor; linarith; linarith)

lemma lexLe_total (a b : ℚ × ℚ × ℚ) : lexLe a b || lexLe b a := by
  simp only [lexLe, Bool.or_eq_true, Bool.and_eq_true, decide_eq_true_iff]
  rcases lt_trichotomy a.1 b.1 with h | h | h
  · exact Or.inl (Or.inl h)
  · rcases lt_trichotomy a.2.1 b.2.1 with g | g | g
    · exact Or.inl (Or.inr ⟨h, Or.inl g⟩)
    · rcases le_total a.2.2 b.2.2 with k | k
      · exact Or.inl (Or.inr ⟨h, Or.inr ⟨g, k⟩⟩)
      · exact Or.inr (Or.inr ⟨h.symm, Or.inr ⟨g.symm, k⟩⟩)
    · exact Or.inr (Or.inr ⟨h.symm, Or.inl g⟩)
  · exact Or.inr (Or.inl h)

lemma lexLe_spread_le (a b : ℚ × ℚ × ℚ) (h : lexLe a b = true) : a.1 ≤ b.1 := by
  simp only [lexLe, Bool.or_eq_true, Bool.and_eq_true, decide_eq_true_iff] at h
  rcases h with h | ⟨h, _⟩
  · exact le_of_lt h
  · exact le_of_eq h

/-- The head of the sorted spread list carries the minimum spread of all
collected samples. -/
lemma sortSpreads_head_min (l : List (ℚ × ℚ × ℚ)) (first : ℚ × ℚ × ℚ)
    (rest : List (ℚ × ℚ × ℚ)) (h : sortSpreads l = first :: rest) :
    ∀ x ∈ l, first.1 ≤ x.1 := by
  intro x hx
  have hs : (l.mergeSort lexLe).Pairwise (fun a b => lexLe a b) :=
    List.sorted_mergeSort lexLe_trans lexLe_total l
  rw [sortSpreads] at h
  rw [h, List.pairwise_cons] at hs
  have hmem : x ∈ first :: rest := by
    rw [← h, List.mem_mergeSort]
    exact hx
  rcases List.mem_cons.mp hmem with rfl | hmem'
  · exact le_refl _
  · exact lexLe_spread_le first x (hs.1 x hmem')

/-- `find_convergence` computes the claim's characterization. -/
lemma find_convergence_eq_spec (s : OpticalSystem) (rays : List (ℚ × ℚ)) :
    find_convergence s rays = specConvergence s rays := by
  rw [find_convergence, specConvergence]
  by_cases hlen : (tracedMultiPaths s rays).length < 2
  · simp only [hlen, if_true]
  · simp only [hlen, if_false]
    by_cases hsp : (spreadSamples (tracedMultiPaths s rays) (totalDistance s)).isEmpty
    · rw [if_pos hsp]
      rw [List.isEmpty_iff] at hsp
      rw [hsp]
      simp [sortSpreads]
    · rw [if_neg hsp]
      rw [List.isEmpty_iff] at hsp
      cases hsort : sortSpreads (spreadSamples (tracedMultiPaths s rays) (totalDistance s)) with
      | nil =>
        exfalso
        apply hsp
        have := congrArg List.length hsort
        rw [sortSpreads, List.length_mergeSort] at this
        exact List.length_eq_zero.mp this
      | cons first rest =>
        cases rest with
        | nil =>
          rw [if_neg (by simp)]
          simp [selectSecond_eq_find?, List.find?]
        | cons b bs =>
          rw [if_pos (by simp)]
          cases hf : (b :: bs).find? fun t => decide (1 < |t.2.1 - first.2.1|) with
          | none => simp [selectSecond_eq_find?, hf]
          | some t => simp [selectSecond_eq_find?, hf]

/-! ## The claims -/

/-- C3: at an element whose position matches the current axial position
within `1e-10`, a ray is blocked (the path returned truncated there) iff
its absolute height strictly exceeds half the element diameter; at
exactly half the diameter the ray is not blocked and tracing
continues. -/
theorem claim_C3 (d1 d2 D w0 y0 : ℚ) :
    (D / 2 < |y0 + d1 * w0| →
      (((({} : OpticalSystem).add_transfer d1).add_iris d1 D).add_transfer d2).trace_ray w0 y0 =
        [(0, y0), (d1, y0 + d1 * w0)]) ∧
    (|y0 + d1 * w0| ≤ D / 2 →
      (((({} : OpticalSystem).add_transfer d1).add_iris d1 D).add_transfer d2).trace_ray w0 y0 =
        [(0, y0), (d1, y0 + d1 * w0), (d1 + d2, y0 + d1 * w0 + d2 * w0)]) ∧
    (|y0 + d1 * w0| = D / 2 →
      (((({} : OpticalSystem).add_transfer d1).add_iris d1 D).add_transfer d2).trace_ray w0 y0 =
        [(0, y0), (d1, y0 + d1 * w0), (d1 + d2, y0 + d1 * w0 + d2 * w0)]) := by
  refine ⟨fun h => ?_, fun h => ?_, fun h => ?_⟩
  · rw [trace_two_transfer_iris, if_pos h]
  · rw [trace_two_transfer_iris, if_neg (not_lt.mpr h)]
  · rw [trace_two_transfer_iris, if_neg (not_lt.mpr (le_of_eq h))]

/-- Witness for C3: with the iris of diameter 2 at position 1, slope 2 is
blocked (height 2 > 1) and truncated, while slope 1 sits exactly on the
boundary (height 1 = 2/2) and is not blocked. -/
theorem claim_C3_witness :
    (((({} : OpticalSystem).add_transfer 1).add_iris 1 2).add_transfer 1).trace_ray 2 0 =
      [(0, 0), (1, 2)] ∧
    (((({} : OpticalSystem).add_transfer 1).add_iris 1 2).add_transfer 1).trace_ray 1 0 =
      [(0, 0), (1, 1), (2, 2)] := by
  have hblk := (claim_C3 1 1 2 2 0).1 (by norm_num)
  have hbdy := (claim_C3 1 1 2 1 0).2.2 (by norm_num)
  norm_num at hblk hbdy
  exact ⟨hblk, hbdy⟩

/-- C4: a system holding a single refraction op (distance 0, power `P`,
`P ≠ 0`) leaves the ray height unchanged (the traced path stays at height
`y0`) and maps the angle `w0` to `w0 - P * y0`. -/
theorem claim_C4 (position P diameter w0 y0 : ℚ) (hP : P ≠ 0) :
    rayAfter (({} : OpticalSystem).add_refraction position P diameter).optical_elements
        (({} : OpticalSystem).add_refraction position P diameter).matrices (y0, w0) 0 =
      (y0, w0 - P * y0) ∧
    (({} : OpticalSystem).add_refraction position P diameter).trace_ray w0 y0 =
      [(0, y0), (0, y0)] := by
  have hsys : ({} : OpticalSystem).add_refraction position P diameter =
      { matrices := [⟨.refraction, refractionMat P, 0⟩],
        optical_elements := [⟨.lens, position, diameter⟩],
        object_height := none, STOP_optic := none } := by
    simp [OpticalSystem.add_refraction]
  rw [hsys]
  constructor
  · simp only [rayAfter, Mat2.apply, refractionMat]
    by_cases hb : blockedAt [⟨.lens, position, diameter⟩] (0 + 0)
        (1 * y0 + 0 * w0) = true
    · rw [if_pos hb]
      norm_num
      ring
    · rw [if_neg hb]
      norm_num
      ring
  · rw [OpticalSystem.trace_ray]
    simp only [traceFrom, Mat2.apply, refractionMat]
    by_cases hb : blockedAt [⟨.lens, position, diameter⟩] (0 + 0)
        (1 * y0 + 0 * w0) = true
    · rw [if_pos hb]
      norm_num
    · rw [if_neg hb]
      norm_num

/-- Witness for C4 at power 2, launch `(w0, y0) = (3, 1)`. -/
theorem claim_C4_witness :
    rayAfter (({} : OpticalSystem).add_refraction 0 2 5).optical_elements
        (({} : OpticalSystem).add_refraction 0 2 5).matrices (1, 3) 0 = (1, 1) ∧
    (({} : OpticalSystem).add_refraction 0 2 5).trace_ray 3 1 = [(0, 1), (0, 1)] := by
  have h := claim_C4 0 2 5 3 1 (by norm_num)
  norm_num at h
  exact h

/-- C5 counterexample: tracing through two unit transfers yields a
three-sample path, tracing through one transfer of distance 2 yields a
two-sample path, so the two traces are not equal as the claim states. -/
theorem claim_C5_counterexample :
    ¬((({} : OpticalSystem).add_transfer 1).add_transfer 1).trace_ray 1 0 =
      (({} : OpticalSystem).add_transfer 2).trace_ray 1 0 := by
  intro h
  have hlen := congrArg List.length h
  simp [OpticalSystem.trace_ray, OpticalSystem.add_transfer, traceFrom, blockedAt] at hlen

/-- C5 (amended): two consecutive transfers of distances `d1, d2 ≥ 0`
with no elements agree with the single transfer of distance `d1 + d2` in
final ray state and final path sample; the two-transfer path carries one
extra intermediate sample at `d1`. -/
theorem claim_C5 (d1 d2 w0 y0 : ℚ) (h1 : 0 ≤ d1) (h2 : 0 ≤ d2) :
    ((({} : OpticalSystem).add_transfer d1).add_transfer d2).trace_ray w0 y0 =
      [(0, y0), (d1, y0 + d1 * w0), (d1 + d2, y0 + (d1 + d2) * w0)] ∧
    (({} : OpticalSystem).add_transfer (d1 + d2)).trace_ray w0 y0 =
      [(0, y0), (d1 + d2, y0 + (d1 + d2) * w0)] ∧
    (((({} : OpticalSystem).add_transfer d1).add_transfer d2).trace_ray w0 y0).getLast? =
      ((({} : OpticalSystem).add_transfer (d1 + d2)).trace_ray w0 y0).getLast? ∧
    rayAfter (((({} : OpticalSystem).add_transfer d1).add_transfer d2).optical_elements)
        (((({} : OpticalSystem).add_transfer d1).add_transfer d2).matrices) (y0, w0) 0 =
      rayAfter ((({} : OpticalSystem).add_transfer (d1 + d2)).optical_elements)
        ((({} : OpticalSystem).add_transfer (d1 + d2)).matrices) (y0, w0) 0 := by
  have ht2 : ((({} : OpticalSystem).add_transfer d1).add_transfer d2).trace_ray w0 y0 =
      [(0, y0), (d1, y0 + d1 * w0), (d1 + d2, y0 + (d1 + d2) * w0)] := by
    rw [OpticalSystem.trace_ray]
    simp only [OpticalSystem.add_transfer, List.nil_append, List.append_nil,
      List.cons_append, List.singleton_append]
    simp only [traceFrom, Mat2.apply, transferMat, blockedAt, List.any_nil,
      Bool.false_eq_true, if_false]
    norm_num
    try ring
  have ht1 : (({} : OpticalSystem).add_transfer (d1 + d2)).trace_ray w0 y0 =
      [(0, y0), (d1 + d2, y0 + (d1 + d2) * w0)] := by
    rw [OpticalSystem.trace_ray]
    simp only [OpticalSystem.add_transfer, List.nil_append]
    simp only [traceFrom, Mat2.apply, transferMat, blockedAt, List.any_nil,
      Bool.false_eq_true, if_false]
    norm_num
    try ring
  refine ⟨ht2, ht1, ?_, ?_⟩
  · rw [ht2, ht1]
    rfl
  · simp only [OpticalSystem.add_transfer, List.nil_append, List.append_nil,
      List.cons_append, List.singleton_append]
    simp only [rayAfter, Mat2.apply, transferMat, blockedAt, List.any_nil,
      Bool.false_eq_true, if_false]
    norm_num
    try ring

/-- Witness for C5 (amended) at `d1 = d2 = 1`, `(w0, y0) = (1, 0)`. -/
theorem claim_C5_witness :
    ((({} : OpticalSystem).add_transfer 1).add_transfer 1).trace_ray 1 0 =
      [(0, 0), (1, 1), (2, 2)] ∧
    (({} : OpticalSystem).add_transfer 2).trace_ray 1 0 = [(0, 0), (2, 2)] := by
  have h := claim_C5 1 1 1 0 (by norm_num) (by norm_num)
  obtain ⟨ha, hb, _, _⟩ := h
  norm_num at ha hb
  exact ⟨ha, hb⟩

/-- C6: requesting a thin lens with focal length exactly zero fails with
a domain error at the add-condition call, before `add_refraction` (and
hence the refraction matrix) is reached; a nonzero focal length appends
the refraction with power `1 / f`. -/
theorem claim_C6 (s : OpticalSystem) (pos f d : ℚ) :
    (f = 0 → addConditionRefraction s pos f d = .error "Focal length cannot be zero" ∧
      ∀ s', addConditionRefraction s pos f d ≠ .ok s') ∧
    (f ≠ 0 → addConditionRefraction s pos f d = .ok (s.add_refraction pos (1 / f) d)) := by
  constructor
  · intro h
    rw [addConditionRefraction, if_pos h]
    exact ⟨rfl, fun s' hc => by cases hc⟩
  · intro h
    rw [addConditionRefraction, if_neg h]

/-- Witness for C6 at focal lengths 0 and 2. -/
theorem claim_C6_witness :
    addConditionRefraction sysEmptyOps 5 0 3 = .error "Focal length cannot be zero" ∧
    addConditionRefraction sysEmptyOps 5 2 3 = .ok (sysEmptyOps.add_refraction 5 (1 / 2) 3) :=
  ⟨((claim_C6 sysEmptyOps 5 0 3).1 rfl).1,
    (claim_C6 sysEmptyOps 5 2 3).2 (by norm_num)⟩

/-- C7: `find_image_position` signals the distinct error exactly when the
object height has never been set; with the height set to any value the
call returns an ordinary result. -/
theorem claim_C7 (s : OpticalSystem) (rays : List (ℚ × ℚ)) :
    (s.object_height = none →
      s.find_image_position rays = .error "Object height not set") ∧
    (∀ H, s.object_height = some H → ∃ v, s.find_image_position rays = .ok v) := by
  constructor
  · intro h
    rw [OpticalSystem.find_image_position, h]
  · intro H h
    rw [OpticalSystem.find_image_position, h]
    exact ⟨_, rfl⟩

/-- Witness for C7: the fresh system errors, the height-4 system does
not. -/
theorem claim_C7_witness :
    ({} : OpticalSystem).find_image_position [] = .error "Object height not set" ∧
    ∃ v, sysEmptyOps.find_image_position [] = .ok v :=
  ⟨(claim_C7 {} []).1 rfl, (claim_C7 sysEmptyOps []).2 4 rfl⟩

/-- C1: in a system (with nonnegative transfer distances, per the data
model) where some candidate angle fails, `find_marginal_rays` returns a
single-element list pairing the last successful angle (in degrees) with
its full ray path; the returned angle is the largest step multiple whose
traced path reaches the total transfer length within `1e-10` (every
candidate from the first failing one on also fails, for any monotone
nonnegative slope conversion); if the very first candidate already
fails, the result is the empty list. -/
theorem claim_C1 (s : OpticalSystem) (slope : ℕ → ℚ) (k₀ fuel : ℕ)
    (hd : ∀ op ∈ s.matrices, 0 ≤ op.dist)
    (hmono : ∀ i j : ℕ, i ≤ j → slope i ≤ slope j)
    (hpos : ∀ i, 0 ≤ slope i)
    (hk : 1 ≤ k₀)
    (hfail : passB s (s.trace_ray (slope k₀) 0) = false)
    (hmin : ∀ j, 1 ≤ j → j < k₀ → passB s (s.trace_ray (slope j) 0) = true)
    (hfuel : k₀ ≤ fuel) :
    (k₀ = 1 → s.find_marginal_rays slope fuel =
      some (applyStop s (s.trace_ray (slope 1) 0), [])) ∧
    (2 ≤ k₀ →
      s.find_marginal_rays slope fuel =
        some (applyStop s (s.trace_ray (slope k₀) 0),
          [((k₀ : ℚ) * angle_step - angle_step, s.trace_ray (slope (k₀ - 1)) 0)]) ∧
      passB s (s.trace_ray (slope (k₀ - 1)) 0) = true ∧
      |finalZ (s.trace_ray (slope (k₀ - 1)) 0) - totalDistance s| ≤ tol ∧
      ∀ j, k₀ ≤ j → passB s (s.trace_ray (slope j) 0) = false) := by
  have hrun := fmr_run_top s slope k₀ hfail hmin fuel hk hfuel
  constructor
  · intro h1
    subst h1
    rw [if_pos rfl] at hrun
    exact hrun
  · intro h2
    have hne : ¬(k₀ = 1) := by omega
    rw [if_neg hne] at hrun
    have hprev : passB s (s.trace_ray (slope (k₀ - 1)) 0) = true :=
      hmin (k₀ - 1) (by omega) (by omega)
    refine ⟨hrun, hprev, ?_, ?_⟩
    · rw [passB, Bool.and_eq_true, decide_eq_true_iff, decide_eq_true_iff] at hprev
      exact hprev.2
    · intro j hj
      by_contra hc
      have hjt : passB s (s.trace_ray (slope j) 0) = true := by
        revert hc
        cases passB s (s.trace_ray (slope j) 0) <;> simp
      have := passB_mono s (slope k₀) (slope j) hd (hpos k₀) (hmono k₀ j hj) hjt
      rw [this] at hfail
      simp at hfail

/-- C8: the angle search is monotonically increasing and unbounded: when
every candidate passes (no finite aperture ever vignettes) the loop never
returns for any fuel bound; when some candidate fails, the loop returns
exactly at the first failing candidate. -/
theorem claim_C8 (s : OpticalSystem) (slope : ℕ → ℚ) :
    ((∀ k, 1 ≤ k → passB s (s.trace_ray (slope k) 0) = true) →
      ∀ fuel, s.find_marginal_rays slope fuel = none) ∧
    (∀ k₀, 1 ≤ k₀ → passB s (s.trace_ray (slope k₀) 0) = false →
      (∀ j, 1 ≤ j → j < k₀ → passB s (s.trace_ray (slope j) 0) = true) →
      ∀ fuel, k₀ ≤ fuel →
        s.find_marginal_rays slope fuel =
          some (applyStop s (s.trace_ray (slope k₀) 0),
            if k₀ = 1 then []
            else [((k₀ : ℚ) * angle_step - angle_step,
                s.trace_ray (slope (k₀ - 1)) 0)])) := by
  constructor
  · intro hall fuel
    exact fmr_aux_never s slope hall fuel 1 none (le_refl 1)
  · intro k₀ hk hfail hmin fuel hfuel
    exact fmr_run_top s slope k₀ hfail hmin fuel hk hfuel

/-- C9: on a built system, `trace_ray` and `find_image_position` modify
no field; a terminating `find_marginal_rays` leaves every field unchanged
except possibly `STOP_optic`, which it overwrites with one of the
registered elements. -/
theorem claim_C9 (s : OpticalSystem) (slope : ℕ → ℚ) (fuel : ℕ)
    (s' : OpticalSystem) (res : List (ℚ × List (ℚ × ℚ)))
    (h : s.find_marginal_rays slope fuel = some (s', res)) :
    s'.matrices = s.matrices ∧
      s'.optical_elements = s.optical_elements ∧
      s'.object_height = s.object_height ∧
      (s'.STOP_optic = s.STOP_optic ∨
        ∃ e ∈ s.optical_elements, s'.STOP_optic = some e) ∧
      (∀ w0 y0 : ℚ, (s.trace_ray_method w0 y0).1 = s) ∧
      (∀ rays, (s.find_image_position_method rays).1 = s) := by
  have hf := fmr_aux_frame s slope fuel 1 none s' res h
  exact ⟨hf.1, hf.2.1, hf.2.2.1, hf.2.2.2, fun _ _ => rfl, fun _ => rfl⟩

/-- C10: with an empty matrix sequence, the very first candidate's path
is the single sample `(0, 0)`, which is classified as failing despite its
final position matching the total length, so the search returns the
empty list at once and the stop marker is untouched. -/
theorem claim_C10 (s : OpticalSystem) (slope : ℕ → ℚ) (fuel : ℕ)
    (hm : s.matrices = []) (hf : 1 ≤ fuel) :
    s.find_marginal_rays slope fuel = some (s, []) ∧
      s.trace_ray (slope 1) 0 = [(0, 0)] ∧
      totalDistance s = 0 ∧
      |finalZ (s.trace_ray (slope 1) 0) - totalDistance s| ≤ tol ∧
      passB s (s.trace_ray (slope 1) 0) = false := by
  have htr : s.trace_ray (slope 1) 0 = [(0, 0)] := by
    rw [OpticalSystem.trace_ray, hm]
    simp [traceFrom]
  have htot : totalDistance s = 0 := by
    rw [totalDistance, hm]
    simp
  have hfalse : passB s (s.trace_ray (slope 1) 0) = false := by
    rw [htr, passB]
    simp
  refine ⟨?_, htr, htot, ?_, hfalse⟩
  · obtain ⟨n, rfl⟩ : ∃ n, fuel = n + 1 := ⟨fuel - 1, by omega⟩
    rw [OpticalSystem.find_marginal_rays, fmr_aux_fail_none s slope n 1 hfalse, htr]
    have hstop : applyStop s [((0 : ℚ), (0 : ℚ))] = s := by
      rw [applyStop, if_neg (by simp)]
    rw [hstop]
  · rw [htr, htot, finalZ]
    simp [tol]

/-- Witness for C1 on a concrete system where the second candidate is the
first to fail: the search returns the first candidate's angle and path. -/
theorem claim_C1_witness :
    sysMarginal.find_marginal_rays natSlope 2 =
      some (applyStop sysMarginal (sysMarginal.trace_ray (natSlope 2) 0),
        [((2 : ℚ) * angle_step - angle_step, sysMarginal.trace_ray (natSlope 1) 0)]) ∧
    passB sysMarginal (sysMarginal.trace_ray (natSlope 1) 0) = true := by
  have h := claim_C1 sysMarginal natSlope 2 2
    (by norm_num [sysMarginal, OpticalSystem.add_transfer, OpticalSystem.add_iris])
    (fun i j hij => by simp only [natSlope]; exact_mod_cast hij)
    (fun i => by simp only [natSlope]; exact Nat.cast_nonneg i)
    (by omega)
    (by norm_num [passB, sysMarginal, natSlope, OpticalSystem.trace_ray,
      OpticalSystem.add_transfer, OpticalSystem.add_iris, traceFrom, blockedAt, Mat2.apply,
      transferMat, tol, finalZ, totalDistance, List.any_cons, List.any_nil, List.filter,
      List.getLastD])
    (fun j h1 h2 => by
      have hj : j = 1 := by omega
      subst hj
      norm_num [passB, sysMarginal, natSlope, OpticalSystem.trace_ray,
        OpticalSystem.add_transfer, OpticalSystem.add_iris, traceFrom, blockedAt, Mat2.apply,
        transferMat, tol, finalZ, totalDistance, List.any_cons, List.any_nil, List.filter,
        List.getLastD])
    (le_refl 2)
  exact ⟨(h.2 (le_refl 2)).1, (h.2 (le_refl 2)).2.1⟩

/-- Witness for C8: a system with no aperture never returns for any fuel,
and a system whose first candidate fails returns at once. -/
theorem claim_C8_witness :
    sysNoStop.find_marginal_rays natSlope 5 = none ∧
    sysStopAtIris.find_marginal_rays natSlope 1 =
      some (applyStop sysStopAtIris (sysStopAtIris.trace_ray (natSlope 1) 0), []) := by
  constructor
  · refine (claim_C8 sysNoStop natSlope).1 (fun k hk => ?_) 5
    show passB sysNoStop (sysNoStop.trace_ray (natSlope k) 0) = true
    rw [passB, OpticalSystem.trace_ray]
    have hsys : sysNoStop =
        { matrices := [⟨.transfer, transferMat 1, 1⟩], optical_elements := [],
          object_height := none, STOP_optic := none } := rfl
    rw [hsys]
    simp only [traceFrom, blockedAt, List.any_nil, Bool.false_eq_true, if_false]
    rw [finalZ]
    simp [totalDistance, tol]
  · have h := (claim_C8 sysStopAtIris natSlope).2 1 (le_refl 1)
      (by norm_num [passB, sysStopAtIris, natSlope, OpticalSystem.trace_ray,
        OpticalSystem.add_transfer, OpticalSystem.add_iris, traceFrom, blockedAt, Mat2.apply,
        transferMat, tol, finalZ, totalDistance, List.any_cons, List.any_nil, List.filter,
        List.getLastD])
      (fun j h1 h2 => absurd h2 (by omega)) 1 (le_refl 1)
    rw [if_pos rfl] at h
    exact h

/-- Witness for C9 on a concrete terminating marginal-ray search. -/
theorem claim_C9_witness :
    (applyStop sysStopAtIris (sysStopAtIris.trace_ray (natSlope 1) 0)).matrices =
        sysStopAtIris.matrices ∧
      (applyStop sysStopAtIris (sysStopAtIris.trace_ray (natSlope 1) 0)).optical_elements =
        sysStopAtIris.optical_elements ∧
      (applyStop sysStopAtIris (sysStopAtIris.trace_ray (natSlope 1) 0)).object_height =
        sysStopAtIris.object_height ∧
      ((applyStop sysStopAtIris (sysStopAtIris.trace_ray (natSlope 1) 0)).STOP_optic =
          sysStopAtIris.STOP_optic ∨
        ∃ e ∈ sysStopAtIris.optical_elements,
          (applyStop sysStopAtIris (sysStopAtIris.trace_ray (natSlope 1) 0)).STOP_optic =
            some e) ∧
      (∀ w0 y0 : ℚ, (sysStopAtIris.trace_ray_method w0 y0).1 = sysStopAtIris) ∧
      (∀ rays, (sysStopAtIris.find_image_position_method rays).1 = sysStopAtIris) :=
  claim_C9 sysStopAtIris natSlope 1
    (applyStop sysStopAtIris (sysStopAtIris.trace_ray (natSlope 1) 0)) []
    (by
      have hfalse : passB sysStopAtIris (sysStopAtIris.trace_ray (natSlope 1) 0) = false := by
        norm_num [passB, sysStopAtIris, natSlope, OpticalSystem.trace_ray,
          OpticalSystem.add_transfer, OpticalSystem.add_iris, traceFrom, blockedAt, Mat2.apply,
          transferMat, tol, finalZ, totalDistance, List.any_cons, List.any_nil, List.filter,
          List.getLastD]
      rw [OpticalSystem.find_marginal_rays, fmr_aux_fail_none sysStopAtIris natSlope 0 1 hfalse])

/-- Witness for C10 on a concrete system holding only an iris. -/
theorem claim_C10_witness :
    sysEmptyOps.find_marginal_rays natSlope 3 = some (sysEmptyOps, []) ∧
      sysEmptyOps.trace_ray (natSlope 1) 0 = [(0, 0)] ∧
      totalDistance sysEmptyOps = 0 ∧
      |finalZ (sysEmptyOps.trace_ray (natSlope 1) 0) - totalDistance sysEmptyOps| ≤ tol ∧
      passB sysEmptyOps (sysEmptyOps.trace_ray (natSlope 1) 0) = false :=
  claim_C10 sysEmptyOps natSlope 3 rfl (by omega)

/-- C2: with the object height set, `find_image_position` reports, for
the base-ray group (launch height within `1e-10` of 0) and the tip-ray
group (within `1e-10` of the object height) independently, the second
distinct candidate of the spread-sorted sample list — the first sorted
sample whose `z` differs by more than 1 cm from the minimum-spread
sample — and absent values when fewer than 2 rays trace to multi-point
paths or no such second candidate exists; the first candidate is indeed a
minimum-spread sample. -/
theorem claim_C2 (s : OpticalSystem) (H : ℚ) (rays : List (ℚ × ℚ))
    (hH : s.object_height = some H) :
    s.find_image_position rays =
      .ok ((specConvergence s (rays.filter fun r => decide (|r.2| < tol))).1,
        (specConvergence s (rays.filter fun r => decide (|r.2| < tol))).2,
        (specConvergence s (rays.filter fun r => decide (|r.2 - H| < tol))).1,
        (specConvergence s (rays.filter fun r => decide (|r.2 - H| < tol))).2) ∧
    (∀ first rest,
      sortSpreads (spreadSamples
          (tracedMultiPaths s (rays.filter fun r => decide (|r.2| < tol)))
          (totalDistance s)) = first :: rest →
      ∀ x ∈ spreadSamples
          (tracedMultiPaths s (rays.filter fun r => decide (|r.2| < tol)))
          (totalDistance s), first.1 ≤ x.1) ∧
    (∀ first rest,
      sortSpreads (spreadSamples
          (tracedMultiPaths s (rays.filter fun r => decide (|r.2 - H| < tol)))
          (totalDistance s)) = first :: rest →
      ∀ x ∈ spreadSamples
          (tracedMultiPaths s (rays.filter fun r => decide (|r.2 - H| < tol)))
          (totalDistance s), first.1 ≤ x.1) := by
  refine ⟨?_, ?_, ?_⟩
  · rw [OpticalSystem.find_image_position, hH]
    simp only [find_convergence_eq_spec]
  · exact fun first rest h => sortSpreads_head_min _ first rest h
  · exact fun first rest h => sortSpreads_head_min _ first rest h

/-- Witness for C2 on the iris-only system with object height 4 and an
empty ray bundle. -/
theorem claim_C2_witness :
    sysEmptyOps.find_image_position [] =
      .ok ((specConvergence sysEmptyOps (List.filter (fun r => decide (|r.2| < tol)) [])).1,
        (specConvergence sysEmptyOps (List.filter (fun r => decide (|r.2| < tol)) [])).2,
        (specConvergence sysEmptyOps (List.filter (fun r => decide (|r.2 - 4| < tol)) [])).1,
        (specConvergence sysEmptyOps
          (List.filter (fun r => decide (|r.2 - 4| < tol)) [])).2) ∧
    (∀ first rest,
      sortSpreads (spreadSamples
          (tracedMultiPaths sysEmptyOps (List.filter (fun r => decide (|r.2| < tol)) []))
          (totalDistance sysEmptyOps)) = first :: rest →
      ∀ x ∈ spreadSamples
          (tracedMultiPaths sysEmptyOps (List.filter (fun r => decide (|r.2| < tol)) []))
          (totalDistance sysEmptyOps), first.1 ≤ x.1) ∧
    (∀ first rest,
      sortSpreads (spreadSamples
          (tracedMultiPaths sysEmptyOps (List.filter (fun r => decide (|r.2 - 4| < tol)) []))
          (totalDistance sysEmptyOps)) = first :: rest →
      ∀ x ∈ spreadSamples
          (tracedMultiPaths sysEmptyOps (List.filter (fun r => decide (|r.2 - 4| < tol)) []))
          (totalDistance sysEmptyOps), first.1 ≤ x.1) :=
  claim_C2 sysEmptyOps 4 [] rfl

end Raytracing
